import Mathlib

/-!
# Verification of the pbs-monitor acquisition/dedup/query core

Shallow embedding of `bin/pbs_monitor.py` (collector: dedup gate and poll
cycle) and `bin/pbs_stats.py` (date parsing, walltime parsing, live prober,
historical summarize, detail view), together with theorems settling the
frozen claims about the natural-language specification.

Conventions of the embedding:
* Python strings are `String`; SQLite TEXT comparison (memcmp on bytes) is
  modelled as lexicographic comparison on the character list, which agrees
  with memcmp on the ASCII data this program handles.
* SQL `NULL`able columns are `Option String`; `col = ?` never matches `NULL`.
* Fallible Python code (uncaught exceptions) is modelled with `Except Unit`.
* `datetime` values are the `Dtm` structure below; chronological order is the
  lexicographic field order, realised through the injective-on-valid-values
  key `dtmKey`.
-/

/-- Lexicographic (memcmp-style) strict comparison on character lists;
models SQLite BINARY collation on the ASCII strings this program stores. -/
def lexLt : List Char → List Char → Bool
  | [], [] => false
  | [], _ :: _ => true
  | _ :: _, [] => false
  | a :: as, b :: bs =>
    if a.toNat < b.toNat then true else if b.toNat < a.toNat then false else lexLt as bs

/-- SQLite TEXT `>=` comparison. -/
def strGe (a b : String) : Bool := ! lexLt a.toList b.toList

/-- Python `needle in haystack` substring test. -/
def strContains (haystack needle : String) : Bool :=
  decide (List.IsInfix needle.toList haystack.toList)

/-- Python `s.split(sep)` for a one-character separator, on character
lists (structurally recursive so that concrete inputs evaluate). -/
def splitChar (sep : Char) : List Char → List (List Char)
  | [] => [[]]
  | c :: cs =>
    match splitChar sep cs with
    | [] => [[]]
    | h :: t => if c = sep then [] :: h :: t else (c :: h) :: t

/-- Python `s.split(sep)` for a one-character separator, on strings. -/
def pySplit (s : String) (sep : Char) : List String :=
  (splitChar sep s.data).map String.mk

/-- Value of a nonempty all-digit character list. -/
def digitsVal : List Char → Option Nat
  | [] => none
  | cs =>
    if cs.all Char.isDigit then
      some (cs.foldl (fun acc c => acc * 10 + (c.toNat - 48)) 0)
    else none

/-- Python `int(s)`: optional single leading sign then decimal digits.
(Surrounding whitespace and underscore separators, which Python also
accepts, do not occur in this program's data and are not modelled.)
`none` models `ValueError`. -/
def pyInt (s : String) : Option Int :=
  match s.toList with
  | [] => none
  | c :: rest =>
    if c = '-' then (digitsVal rest).map (fun n => -(n : Int))
    else if c = '+' then (digitsVal rest).map (fun n => (n : Int))
    else (digitsVal (c :: rest)).map (fun n => (n : Int))

/-- Zero-padded two-digit decimal rendering (strftime `%d`, `%m`, `%H`, ...). -/
def pad2 (n : Nat) : String :=
  if n < 10 then "0" ++ toString n else toString n

/-- Four-digit decimal rendering (strftime `%Y` for the years in use). -/
def pad4 (n : Nat) : String :=
  if n < 10 then "000" ++ toString n
  else if n < 100 then "00" ++ toString n
  else if n < 1000 then "0" ++ toString n
  else toString n

/-- A Python `datetime` value (date and time of day). -/
structure Dtm where
  year : Nat
  month : Nat
  day : Nat
  hour : Nat
  minute : Nat
  second : Nat
  deriving DecidableEq, Repr

/-- Injective-on-valid-values encoding of a `Dtm`; chronological comparison
of in-range datetimes coincides with `Nat` comparison of keys. -/
def dtmKey (t : Dtm) : Nat :=
  ((((t.year * 13 + t.month) * 32 + t.day) * 24 + t.hour) * 60 + t.minute) * 60 + t.second

/-- Python `datetime` strict order. -/
def dtmLt (a b : Dtm) : Prop := dtmKey a < dtmKey b

/-- Python `datetime` order. -/
def dtmLe (a b : Dtm) : Prop := dtmKey a ≤ dtmKey b

instance (a b : Dtm) : Decidable (dtmLt a b) :=
  inferInstanceAs (Decidable (dtmKey a < dtmKey b))

instance (a b : Dtm) : Decidable (dtmLe a b) :=
  inferInstanceAs (Decidable (dtmKey a ≤ dtmKey b))

/-- `datetime.min` (year 1, January 1, midnight). -/
def dtmMin : Dtm := ⟨1, 1, 1, 0, 0, 0⟩

/-- Days since 0000-03-01 of a civil date (standard floor-division
formula); used to model `timedelta` day arithmetic and `%a`. -/
def daysFromCivil (y m d : Int) : Int :=
  let mp : Int := (m + 9) % 12
  let yp : Int := y - mp / 10
  365 * yp + Int.fdiv yp 4 - Int.fdiv yp 100 + Int.fdiv yp 400 + (mp * 306 + 5) / 10 + (d - 1)

/-- Inverse of `daysFromCivil`. -/
def civilFromDays (g : Int) : Int × Int × Int :=
  let y0 : Int := Int.fdiv (10000 * g + 14780) 3652425
  let ddd0 : Int := g - (365 * y0 + Int.fdiv y0 4 - Int.fdiv y0 100 + Int.fdiv y0 400)
  let y : Int := if ddd0 < 0 then y0 - 1 else y0
  let ddd : Int := if ddd0 < 0 then g - (365 * y + Int.fdiv y 4 - Int.fdiv y 100 + Int.fdiv y 400) else ddd0
  let mi : Int := Int.fdiv (100 * ddd + 52) 3060
  let mm : Int := (mi + 2) % 12 + 1
  (y + Int.fdiv (mi + 2) 12, mm, ddd - Int.fdiv (mi * 306 + 5) 10 + 1)

/-- `dt + timedelta(days=k)` (calendar-exact, time of day unchanged). -/
def addDaysI (t : Dtm) (k : Int) : Dtm :=
  let g := daysFromCivil (t.year : Int) (t.month : Int) (t.day : Int) + k
  let c := civilFromDays g
  ⟨c.1.toNat, c.2.1.toNat, c.2.2.toNat, t.hour, t.minute, t.second⟩

/-- `dt - timedelta(days=k)`. -/
def subDaysI (t : Dtm) (k : Int) : Dtm := addDaysI t (-k)

/-- Abbreviated weekday names in `%a` order for `daysFromCivil ... % 7`;
day 0 of the era (0000-03-01) was a Wednesday. -/
def weekdayName (y m d : Nat) : String :=
  match (Int.emod (daysFromCivil (y : Int) (m : Int) (d : Int)) 7).toNat with
  | 0 => "Wed"
  | 1 => "Thu"
  | 2 => "Fri"
  | 3 => "Sat"
  | 4 => "Sun"
  | 5 => "Mon"
  | _ => "Tue"

/-- Abbreviated month names (strftime `%b` / strptime `%b`, C locale). -/
def monthNames : List String :=
  ["Jan", "Feb", "Mar", "Apr", "May", "Jun", "Jul", "Aug", "Sep", "Oct", "Nov", "Dec"]

/-- strptime `%b`: index (1-based) of an abbreviated month name. -/
def monthIndex (s : String) : Option Nat :=
  match monthNames.indexOf? s with
  | some i => some (i + 1)
  | none => none

/-- Abbreviated weekday names accepted by strptime `%a` (C locale). -/
def dayNames : List String :=
  ["Mon", "Tue", "Wed", "Thu", "Fri", "Sat", "Sun"]

/-- Days in a month, with Gregorian leap years (the `datetime`
constructor's day-of-month validation). -/
def daysInMonth (y m : Nat) : Nat :=
  if m = 2 then
    if y % 4 = 0 ∧ (y % 100 ≠ 0 ∨ y % 400 = 0) then 29 else 28
  else if m = 4 ∨ m = 6 ∨ m = 9 ∨ m = 11 then 30
  else 31

/-- A 1-or-2-digit numeric field (strptime `%d`, `%H`, `%M`, `%S`). -/
def parse2Digit (s : String) : Option Nat :=
  if s.length = 1 ∨ s.length = 2 then digitsVal s.toList else none

/-- An exactly-4-digit numeric field (strptime `%Y`). -/
def parse4Digit (s : String) : Option Nat :=
  if s.length = 4 then digitsVal s.toList else none

/-- The range checks performed jointly by the strptime field regexes and
the `datetime` constructor; the only producer of `some` in `parse_pbs_date`. -/
def mkDtmChecked (y m d h mi s : Nat) : Option Dtm :=
  if 1 ≤ y ∧ 1 ≤ m ∧ m ≤ 12 ∧ 1 ≤ d ∧ d ≤ daysInMonth y m ∧ h ≤ 23 ∧ mi ≤ 59 ∧ s ≤ 59 then
    some ⟨y, m, d, h, mi, s⟩
  else none

/-- strptime `%H:%M:%S` on the colon-joined time token. -/
def parseHms (s : String) : Option (Nat × Nat × Nat) :=
  match pySplit s ':' with
  | [hT, mT, sT] =>
    match parse2Digit hT, parse2Digit mT, parse2Digit sT with
    | some h, some m, some sec => some (h, m, sec)
    | _, _, _ => none
  | _ => none

/-- `parse_pbs_date` (pbs_stats.py lines 14-23): parse scheduler date text
`"%a %b %d %H:%M:%S %Y"` to a datetime, `None` on empty or unparseable
input (the caught `ValueError`).  strptime treats whitespace in the format
as one-or-more spaces and ignores the parsed weekday name's consistency
with the date; both behaviours are reflected here. -/
def parse_pbs_date (s : String) : Option Dtm :=
  if s = "" then none
  else if s.data.head? = some ' ' ∨ s.data.getLast? = some ' ' then none
  else
    match (pySplit s ' ').filter (fun t => t ≠ "") with
    | [wd, mon, dayT, timeT, yearT] =>
      if dayNames.contains wd then
        match monthIndex mon, parse2Digit dayT, parseHms timeT, parse4Digit yearT with
        | some m, some d, some (h, mi, sec), some y => mkDtmChecked y m d h mi sec
        | _, _, _, _ => none
      else none
    | _ => none

/-- strftime `"%a %b %d %H:%M:%S %Y"` (the PBS date rendering used by
`get_job_stats` for `last_run`). -/
def strftimePbs (t : Dtm) : String :=
  weekdayName t.year t.month t.day ++ " " ++
    (monthNames.getD (t.month - 1) "Jan") ++ " " ++ pad2 t.day ++ " " ++
    pad2 t.hour ++ ":" ++ pad2 t.minute ++ ":" ++ pad2 t.second ++ " " ++ pad4 t.year

/-- strftime `"%d-%m-%Y %H:%M:%S"`. -/
def strftimeDmy (t : Dtm) : String :=
  pad2 t.day ++ "-" ++ pad2 t.month ++ "-" ++ pad4 t.year ++ " " ++
    pad2 t.hour ++ ":" ++ pad2 t.minute ++ ":" ++ pad2 t.second

/-- `format_pbs_date` (pbs_stats.py lines 25-33): reformat PBS date text to
`DD-MM-YYYY HH:MM:SS`, `"N/A"` when empty or unparseable. -/
def format_pbs_date (s : String) : String :=
  if s = "" then "N/A"
  else
    match parse_pbs_date s with
    | some dt => strftimeDmy dt
    | none => "N/A"

/-- strptime `"%d-%m-%Y"` (user-supplied date filters), with the
constructor's validity checks; `none` models the raised `ValueError`. -/
def parseInputDmy (s : String) : Option Dtm :=
  match pySplit s '-' with
  | [dT, mT, yT] =>
    match parse2Digit dT, parse2Digit mT, parse4Digit yT with
    | some d, some m, some y => mkDtmChecked y m d 0 0 0
    | _, _, _ => none
  | _ => none

/-- The `len(parts) in {2,3}` colon branches of `parse_walltime`
(pbs_stats.py lines 137-144); `fb` is the code that follows when neither
branch returns.  `.error ()` models the uncaught `ValueError` raised by
`map(int, parts)`. -/
def walltimeColonStep (s : String) (fb : Except Unit (Option Int)) : Except Unit (Option Int) :=
  if s.data.contains ':' then
    match pySplit s ':' with
    | [aT, bT, cT] =>
      match pyInt aT, pyInt bT, pyInt cT with
      | some h, some m, some sec => .ok (some (h * 3600 + m * 60 + sec))
      | _, _, _ => .error ()
    | [aT, bT] =>
      match pyInt aT, pyInt bT with
      | some m, some sec => .ok (some (m * 60 + sec))
      | _, _ => .error ()
    | _ => fb
  else fb

/-- Final `int(walltime_str)` attempt of `parse_walltime` (lines 153-157),
with `ValueError` caught. -/
def walltimeIntStep (s : String) : Except Unit (Option Int) :=
  match pyInt s with
  | some n => .ok (some n)
  | none => .ok none

/-- `parse_walltime` restricted to strings without `'+'`: on such strings
the `'+'` branch cannot fire, so this is exactly the behaviour of the
recursive call `parse_walltime(time_part)` (whose argument, the second
component of a two-way `split('+')`, never contains `'+'`). -/
def parseWalltimeNoPlus (s : String) : Except Unit (Option Int) :=
  if s = "" ∨ s = "N/A" then .ok none
  else walltimeColonStep s (walltimeIntStep s)

/-- `parse_walltime` (pbs_stats.py lines 131-157).  Note the source tests
`':' in walltime_str` before `'+' in walltime_str`, so a `D+HH:MM:SS`
string is split on `':'` first; the `'+'` branch only runs when the
colon-split length is not 2 or 3.  `split('+')` with other than exactly
two pieces raises at the tuple unpacking (`.error ()`), and
`days * 86400 + time_seconds if time_seconds else None` yields `None`
when the recursive result is falsy (`None` or `0`). -/
def parse_walltime (s : String) : Except Unit (Option Int) :=
  if s = "" ∨ s = "N/A" then .ok none
  else
    walltimeColonStep s
      (if s.data.contains '+' then
        match pySplit s '+' with
        | [daysT, timeT] =>
          match pyInt daysT with
          | none => .error ()
          | some days =>
            match parseWalltimeNoPlus timeT with
            | .error e => .error e
            | .ok ts =>
              .ok (match ts with
                | some v => if v ≠ 0 then some (days * 86400 + v) else none
                | none => none)
        | _ => .error ()
      else walltimeIntStep s)

/-- `' '.join(parts)` (structurally recursive). -/
def joinWithSpace : List String → String
  | [] => ""
  | [x] => x
  | x :: xs => x ++ " " ++ joinWithSpace xs

/-- Arithmetic core of `format_duration` (pbs_stats.py lines 159-181) once
`seconds` is an `int`; Python `divmod` with positive divisor is Euclidean
division. -/
def formatDurationCore (n : Int) : String :=
  let d := Int.ediv n 86400
  let r1 := Int.emod n 86400
  let h := Int.ediv r1 3600
  let r2 := Int.emod r1 3600
  let m := Int.ediv r2 60
  let s := Int.emod r2 60
  let p1 := if d > 0 then [toString d ++ "d"] else []
  let p2 := if h > 0 ∨ d > 0 then [toString h ++ "h"] else []
  let p3 := if m > 0 ∨ h > 0 ∨ d > 0 then [toString m ++ "m"] else []
  joinWithSpace (p1 ++ p2 ++ p3 ++ [toString s ++ "s"])

/-- `format_duration` applied to an optional integer second count
(the `walltime_seconds` call site). -/
def format_duration (x : Option Int) : String :=
  match x with
  | none => "N/A"
  | some n => formatDurationCore n

/-- `format_duration` applied to an optional raw string (the
`resources_used.get('cput')` call site): `int(seconds)` failure is caught
and yields `"N/A"`. -/
def formatDurationOfStr (x : Option String) : String :=
  match x with
  | none => "N/A"
  | some s =>
    match pyInt s with
    | none => "N/A"
    | some n => formatDurationCore n

/-- The scheduler-reported resource dictionaries (`resources_used` /
`Resource_List`); values kept as optional opaque text. -/
structure Resources where
  ncpus : Option String
  mem : Option String
  walltime : Option String
  cput : Option String
  deriving DecidableEq, Repr

/-- One job object of the scheduler's JSON payload; only the fields the
program reads.  `none` models an absent key. -/
structure JobInfo where
  Job_Owner : Option String
  exec_host : Option String
  stime : Option String
  queue : Option String
  Job_Name : Option String
  job_state : Option String
  resources_used : Resources
  Resource_List : Resources
  exit_status : Option String
  Submit_arguments : Option String
  deriving DecidableEq, Repr

/-- A row of the `jobs` table
(`jobs(job_id, user, machine, start_time, data_json)`).  `data` is the
structured form of the `data_json` blob: the collector stores
`json.dumps(job_info)` and the readers apply `json.loads`, an identity
round-trip. -/
structure JobRow where
  job_id : String
  user : Option String
  machine : Option String
  start_time : String
  data : JobInfo
  deriving DecidableEq, Repr

/-- A row of the `nodes` table (`nodes(timestamp, node_name, data_json)`). -/
structure NodeRow where
  timestamp : String
  node_name : String
  data_json : String
  deriving DecidableEq, Repr

/-- The SQLite database contents. -/
structure DB where
  nodes : List NodeRow
  jobs : List JobRow
  deriving DecidableEq, Repr

/-- `job_info.get('Job_Owner', '').split('@')[0]` (pbs_monitor.py line 93). -/
def mkUser (owner : Option String) : String :=
  (pySplit (owner.getD "") '@').headD ""

/-- `job_info.get('exec_host', '').split('/')[0] if job_info.get('exec_host') else None`
(pbs_monitor.py line 94): a falsy raw value (absent key or empty string)
gives `None`. -/
def mkExecHost (raw : Option String) : Option String :=
  match raw with
  | none => none
  | some s => if s = "" then none else some ((pySplit s '/').headD "")

/-- The candidate dictionary built for the dedup gate
(pbs_monitor.py lines 98-103). -/
structure JobData where
  job_id : String
  user : String
  machine : String
  start_time : String
  deriving DecidableEq, Repr

/-- pbs_monitor.py lines 98-103. -/
def mkJobData (job_id : String) (info : JobInfo) : JobData :=
  { job_id := job_id
    user := mkUser info.Job_Owner
    machine := (mkExecHost info.exec_host).getD "unknown"
    start_time := (info.stime).getD "" }

/-- The row the collector inserts (pbs_monitor.py lines 107-108):
`INSERT INTO jobs VALUES (job_id, user, exec_host, stime, dumps(job_info))` —
note it stores `exec_host` (possibly `NULL`), not the gate's
`machine` value. -/
def mkInsertRow (job_id : String) (info : JobInfo) : JobRow :=
  { job_id := job_id
    user := some (mkUser info.Job_Owner)
    machine := mkExecHost info.exec_host
    start_time := (info.stime).getD ""
    data := info }

/-- The `WHERE` predicate of the dedup query (pbs_monitor.py lines 21-26):
`job_id = ? AND user = ? AND machine = ? AND start_time >= datetime('now', ?)`.
`cutoff` is the ISO text produced by `datetime('now', '-W minutes')`;
the TEXT-vs-TEXT `>=` is the memcmp comparison `strGe`.  An SQL `NULL`
column never satisfies `col = ?`. -/
def jobMatchesRecent (jd : JobData) (cutoff : String) (r : JobRow) : Bool :=
  r.job_id == jd.job_id && r.user == some jd.user && r.machine == some jd.machine &&
    strGe r.start_time cutoff

/-- `should_store_job` (pbs_monitor.py lines 16-29): store only when no
existing row matches the dedup query. -/
def should_store_job (jd : JobData) (jobs : List JobRow) (cutoff : String) : Bool :=
  (jobs.countP (jobMatchesRecent jd cutoff)) == 0

/-- One iteration of the job-storage loop (pbs_monitor.py lines 92-112):
uncommitted inserts of the same cycle are visible to the gate's query on
the same connection, hence the accumulating list. -/
def processJob (cutoff : String) (jobs : List JobRow) (job_id : String) (info : JobInfo) :
    List JobRow :=
  if should_store_job (mkJobData job_id info) jobs cutoff then
    jobs ++ [mkInsertRow job_id info]
  else jobs

/-- The job-storage loop over the polled `Jobs` object. -/
def collectJobs (cutoff : String) (jobsData : List (String × JobInfo)) (jobs : List JobRow) :
    List JobRow :=
  jobsData.foldl (fun st p => processJob cutoff st p.1 p.2) jobs

/-- `collect_data` (pbs_monitor.py lines 51-128).  `nodesRes` / `jobsRes`
are the fetched-and-parsed datasets, `none` modelling a command failure or
malformed JSON (both raise).  The single `try` block and the single
`conn.commit()` at the end mean every exception — nodes fetch, jobs fetch,
either JSON parse, or a storage write — leaves the database unchanged
(nothing is committed); a fully successful cycle appends one node row per
node and the dedup-gated job rows. -/
def collect_data (cutoff timestamp : String) (nodesRes : Option (List (String × String)))
    (jobsRes : Option (List (String × JobInfo))) (db : DB) : DB :=
  match nodesRes, jobsRes with
  | some nodesData, some jobsData =>
    { nodes := db.nodes ++ nodesData.map (fun p => ⟨timestamp, p.1, p.2⟩)
      jobs := collectJobs cutoff jobsData db.jobs }
  | _, _ => db

/-- Requested-resources sub-record of a live/detail row. -/
structure ReqRes where
  cpus : String
  mem : String
  walltime : String
  deriving DecidableEq, Repr

/-- Used-resources sub-record of a live/detail row. -/
structure UsedRes where
  cpus : String
  mem : String
  walltime : String
  cpu_time : String
  deriving DecidableEq, Repr

/-- One real-time job row built by `get_real_time_jobs`
(pbs_stats.py lines 92-114). -/
structure RTJob where
  job_id : String
  user : String
  machine : String
  queue : String
  job_name : String
  state : String
  start_time : String
  resources : ReqRes
  used : UsedRes
  exit_status : String
  submit_args : String
  is_real_time : Bool
  deriving DecidableEq, Repr

/-- Outcome of the external `qstat -fx -F json` invocation made by
`get_real_time_jobs`: a 30s timeout, any other raised exception, or an
exit with a return code and (when the stdout is valid JSON) the parsed
`Jobs` object (`.get('Jobs', {})` of a JSON body without that key is the
empty object, i.e. `some []`). -/
inductive QstatRun where
  | timeout
  | exc
  | exited (returncode : Int) (parsed : Option (List (String × JobInfo)))
  deriving DecidableEq, Repr

/-- The per-job body of the `get_real_time_jobs` loop
(pbs_stats.py lines 70-114): machine substring filter (applied only when
both the filter and a truthy `exec_host` are present), skip finished
(`'F'`) jobs, then build the row with `start_time` stamped as the current
wall-clock text. -/
def buildRealTimeJobs (machineF : Option String) (nowText : String)
    (jobsData : List (String × JobInfo)) : List RTJob :=
  jobsData.filterMap (fun p =>
    let info := p.2
    let exec_host := info.exec_host
    let skipMachine :=
      match machineF, exec_host with
      | some m, some e => if e ≠ "" then ! strContains e m else false
      | _, _ => false
    if skipMachine then none
    else if info.job_state.getD "N/A" = "F" then none
    else
      some
        { job_id := p.1
          user := mkUser info.Job_Owner
          machine := match exec_host with
            | some e => if e = "" then "N/A" else e
            | none => "N/A"
          queue := info.queue.getD "N/A"
          job_name := info.Job_Name.getD "N/A"
          state := info.job_state.getD "N/A"
          start_time := nowText
          resources :=
            { cpus := info.Resource_List.ncpus.getD "N/A"
              mem := info.Resource_List.mem.getD "N/A"
              walltime := info.Resource_List.walltime.getD "N/A" }
          used :=
            { cpus := info.resources_used.ncpus.getD "N/A"
              mem := info.resources_used.mem.getD "N/A"
              walltime := info.resources_used.walltime.getD "N/A"
              cpu_time := info.resources_used.cput.getD "N/A" }
          exit_status := info.exit_status.getD "N/A"
          submit_args := info.Submit_arguments.getD "N/A"
          is_real_time := true })

/-- `get_real_time_jobs` (pbs_stats.py lines 47-129).  `userF` is passed to
the external command (`-u user`) and therefore only influences the
command's output, which arrives through `run`; `nowText` is
`datetime.now().strftime("%Y-%m-%d %H:%M:%S")`.  Timeout, any other
exception, a non-zero return code, and malformed JSON all return `[]`. -/
def get_real_time_jobs (userF machineF : Option String) (nowText : String)
    (run : QstatRun) : List RTJob :=
  match run with
  | .timeout => []
  | .exc => []
  | .exited rc parsed =>
    if rc ≠ 0 then []
    else
      match parsed with
      | none => []
      | some jobsData => buildRealTimeJobs machineF nowText jobsData

/-- The failure categories of the live probe named by the spec: timeout,
other raised error, non-zero exit, malformed JSON output. -/
def qstatFailed : QstatRun → Bool
  | .timeout => true
  | .exc => true
  | .exited rc parsed => rc ≠ 0 || parsed.isNone

/-- A filtered job dictionary appended by the date-filter loop of
`get_job_stats` (pbs_stats.py lines 329-333). -/
structure FJob where
  user : Option String
  machine : String
  start_time : String
  deriving DecidableEq, Repr

/-- One summary row of `get_job_stats` (pbs_stats.py lines 365-370). -/
structure SummaryRow where
  user : Option String
  machine : String
  jobs : Nat
  last_run : String
  deriving DecidableEq, Repr

/-- The dictionary returned by `get_job_stats`' historical path
(pbs_stats.py lines 382-387). -/
structure StatsResult where
  period : String
  total_jobs : Nat
  results : List SummaryRow
  deriving DecidableEq, Repr

/-- The non-date `WHERE` conditions of the base query (pbs_stats.py
lines 225-237): exact user match, exact machine match, and
`user IS NOT NULL` only when no user filter is given. -/
def nonDatePass (userF machineF : Option String) (r : JobRow) : Bool :=
  (match userF with
    | some u => r.user == some u
    | none => r.user ≠ none) &&
  (match machineF with
    | some m => r.machine == some m
    | none => true)

/-- The date-bound computation of `get_job_stats` (pbs_stats.py
lines 278-308): single date, date range, open-ended range, relative
last-N-days, or no bound; returns `(start_dt, end_dt, date_range)`.
`datetime.strptime` on a malformed `DD-MM-YYYY` input raises
(`.error ()`); a non-integer `days` value is caught and ignored
(`except ValueError: pass`). -/
def computeBounds (dateF startF endF daysF : Option String) (now : Dtm) :
    Except Unit (Option Dtm × Option Dtm × String) :=
  match dateF with
  | some ds =>
    match parseInputDmy ds with
    | none => .error ()
    | some dt => .ok (some dt, some (addDaysI dt 1), "Specific date: " ++ ds)
  | none =>
    match startF, endF with
    | some sS, some eS =>
      match parseInputDmy sS, parseInputDmy eS with
      | some sdt, some edt =>
        .ok (some sdt, some (addDaysI edt 1), "Date range: " ++ sS ++ " to " ++ eS)
      | _, _ => .error ()
    | some sS, none =>
      match parseInputDmy sS with
      | some sdt => .ok (some sdt, none, "From date: " ++ sS)
      | none => .error ()
    | none, some eS =>
      match parseInputDmy eS with
      | some edt => .ok (none, some (addDaysI edt 1), "Until date: " ++ eS)
      | none => .error ()
    | none, none =>
      match daysF with
      | some dS =>
        if dS ≠ "" ∧ dS ≠ "all" then
          match pyInt dS with
          | some n => .ok (some (subDaysI now n), none, "Last " ++ dS ++ " days")
          | none => .ok (none, none, "All history")
        else .ok (none, none, "All history")
      | none => .ok (none, none, "All history")

/-- The per-row body of the Python date-filter loop (pbs_stats.py
lines 312-333): skip empty `start_time`, skip unparseable `start_time`,
apply `job_dt < start_dt` / `job_dt >= end_dt` exclusions, and keep the
row dictionary with `machine` already coalesced by the
`COALESCE(machine, 'N/A')` of the SELECT. -/
def rowFilter (startB endB : Option Dtm) (r : JobRow) : Option FJob :=
  if r.start_time = "" then none
  else
    match parse_pbs_date r.start_time with
    | none => none
    | some jdt =>
      let include_job :=
        (match startB with
          | some sdt => ! decide (dtmLt jdt sdt)
          | none => true) &&
        (match endB with
          | some edt => ! decide (dtmLe edt jdt)
          | none => true)
      if include_job then some ⟨r.user, r.machine.getD "N/A", r.start_time⟩ else none

/-- Grouping key of the summarize loop: `(job['user'], job['machine'])`. -/
def keyF (j : FJob) : Option String × String := (j.user, j.machine)

/-- The datetime the grouping loop compares
(`parse_pbs_date(job['start_time'])`); for every job that survived the
date filter the parse succeeds, so the `datetime.min` default is never
the compared value there. -/
def dtF (j : FJob) : Dtm := (parse_pbs_date j.start_time).getD dtmMin

/-- Python-dict lookup on an insertion-ordered association list. -/
def lookupA {α : Type} : List ((Option String × String) × α) → (Option String × String) → Option α
  | [], _ => none
  | (k1, a) :: rest, k => if k1 = k then some a else lookupA rest k

/-- `job_counts[key] += 1` / `job_counts[key] = 1` (pbs_stats.py
lines 345-349): in-place update, insertion at the end for a new key. -/
def bump (acc : List ((Option String × String) × Nat)) (k : Option String × String) :
    List ((Option String × String) × Nat) :=
  match acc with
  | [] => [(k, 1)]
  | (k1, n) :: rest => if k1 = k then (k1, n + 1) :: rest else (k1, n) :: bump rest k

/-- The `last_runs` update (pbs_stats.py lines 351-357): replace only when
the new datetime is strictly later. -/
def upLast (acc : List ((Option String × String) × Dtm)) (k : Option String × String)
    (d : Dtm) : List ((Option String × String) × Dtm) :=
  match acc with
  | [] => [(k, d)]
  | (k1, d1) :: rest =>
    if k1 = k then (k1, if dtmLt d1 d then d else d1) :: rest
    else (k1, d1) :: upLast rest k d

/-- The single pass over `filtered_jobs` filling both dictionaries
(pbs_stats.py lines 339-357). -/
def groupFold (fj : List FJob) :
    List ((Option String × String) × Nat) × List ((Option String × String) × Dtm) :=
  fj.foldl (fun acc j => (bump acc.1 (keyF j), upLast acc.2 (keyF j) (dtF j))) ([], [])

/-- Stable insertion into a sorted list: `a` is placed before the first
element `b` with `le a b`. -/
def insertDesc {α : Type} (le : α → α → Bool) (a : α) : List α → List α
  | [] => [a]
  | b :: bs => if le a b then a :: b :: bs else b :: insertDesc le a bs

/-- Stable sort (equal-key elements keep their original order, as Python's
`sorted`); with `le x y := key y ≤ key x` this is a stable descending sort,
the meaning of `sorted(..., reverse=True)`. -/
def insSort {α : Type} (le : α → α → Bool) : List α → List α
  | [] => []
  | a :: as => insertDesc le a (insSort le as)

/-- Result-row construction of `get_job_stats` (pbs_stats.py lines 360-370):
`last_run` renders the tracked maximum through
`format_pbs_date(dt.strftime("%a %b %d %H:%M:%S %Y"))`, `"N/A"` when the
key is absent from `last_runs`. -/
def mkSummaryRow (k : Option String × String) (c : Nat) (lr : Option Dtm) : SummaryRow :=
  { user := k.1
    machine := k.2
    jobs := c
    last_run := match lr with
      | some dt => format_pbs_date (strftimePbs dt)
      | none => "N/A" }

/-- `get_job_stats` (pbs_stats.py lines 202-387), historical path
(`real_time` false; the real-time branch is `get_real_time_jobs` above).
Storage errors (the `except` around the base query) are not modelled: the
store is a value.  The SQL row order is irrelevant here because grouping
and counting are order-insensitive up to the dict orders modelled by the
association lists. -/
def get_job_stats (daysF dateF startF endF userF machineF : Option String) (now : Dtm)
    (store : List JobRow) : Except Unit StatsResult :=
  let all_rows := store.filter (nonDatePass userF machineF)
  match computeBounds dateF startF endF daysF now with
  | .error e => .error e
  | .ok (startB, endB, date_range) =>
    let filtered_jobs := all_rows.filterMap (rowFilter startB endB)
    let grouped := groupFold filtered_jobs
    let results0 := grouped.1.map (fun p => mkSummaryRow p.1 p.2 (lookupA grouped.2 p.1))
    .ok
      { period := date_range
        total_jobs := filtered_jobs.length
        results := insSort (fun a b => decide (b.jobs ≤ a.jobs)) results0 }

/-- One detail row built by `get_job_details` (pbs_stats.py lines 684-705). -/
structure Detail where
  job_id : String
  user : Option String
  machine : Option String
  start_time : String
  queue : String
  job_name : String
  state : String
  resources : ReqRes
  used : UsedRes
  exit_status : String
  submit_args : String
  deriving DecidableEq, Repr

/-- The non-date `WHERE` conditions of `get_job_details`
(pbs_stats.py lines 621-631): only the exact user/machine filters (no
`IS NOT NULL` here). -/
def umPass (userF machineF : Option String) (r : JobRow) : Bool :=
  (match userF with
    | some u => r.user == some u
    | none => true) &&
  (match machineF with
    | some m => r.machine == some m
    | none => true)

/-- Row-to-detail construction (pbs_stats.py lines 676-705): `start_time`
is reformatted through `format_pbs_date`, the used walltime is parsed with
`parse_walltime` — whose uncaught `ValueError` propagates out of
`get_job_details` (`.error`) — and `cput` goes through `format_duration`
directly on the raw string. -/
def mkDetail (r : JobRow) : Except Unit Detail :=
  let walltime_str := r.data.resources_used.walltime.getD "N/A"
  let wres : Except Unit (Option Int) :=
    if walltime_str ≠ "N/A" then parse_walltime walltime_str else .ok none
  match wres with
  | .error e => .error e
  | .ok walltime_seconds =>
    .ok
      { job_id := r.job_id
        user := r.user
        machine := r.machine
        start_time := format_pbs_date r.start_time
        queue := r.data.queue.getD "N/A"
        job_name := r.data.Job_Name.getD "N/A"
        state := r.data.job_state.getD "N/A"
        resources :=
          { cpus := r.data.Resource_List.ncpus.getD "N/A"
            mem := r.data.Resource_List.mem.getD "N/A"
            walltime := r.data.Resource_List.walltime.getD "N/A" }
        used :=
          { cpus := r.data.resources_used.ncpus.getD "N/A"
            mem := r.data.resources_used.mem.getD "N/A"
            walltime := format_duration walltime_seconds
            cpu_time := formatDurationOfStr r.data.resources_used.cput }
        exit_status := r.data.exit_status.getD "N/A"
        submit_args := r.data.Submit_arguments.getD "N/A" }

/-- The fetch loop of `get_job_details` (pbs_stats.py lines 666-705):
skip rows older than the cutoff (or with unparseable `start_time` when a
cutoff is set), otherwise build the detail row, propagating any
`parse_walltime` exception. -/
def detailLoop (cutoff : Option Dtm) : List JobRow → Except Unit (List Detail)
  | [] => .ok []
  | r :: rs =>
    let st := parse_pbs_date r.start_time
    let skip :=
      match cutoff with
      | some c =>
        match st with
        | none => true
        | some d => decide (dtmLt d c)
      | none => false
    if skip then detailLoop cutoff rs
    else
      match mkDetail r with
      | .error e => .error e
      | .ok d => (detailLoop cutoff rs).map (fun ds => d :: ds)

/-- `get_job_details` (pbs_stats.py lines 615-708): user/machine-filtered
rows in `ORDER BY start_time DESC` order — a descending memcmp TEXT sort —
then the fetch loop with the optional relative-days cutoff
(`days='all'`, empty, or non-integer means no cutoff). -/
def get_job_details (userF machineF daysF : Option String) (now : Dtm)
    (store : List JobRow) : Except Unit (List Detail) :=
  let rows := insSort (fun a b => strGe a.start_time b.start_time)
    (store.filter (umPass userF machineF))
  let cutoff : Option Dtm :=
    match daysF with
    | some dS =>
      if dS ≠ "" ∧ dS ≠ "all" then (pyInt dS).map (subDaysI now) else none
    | none => none
  detailLoop cutoff rows

/-- Python-dict lookup keyed by `job_id`. -/
def lookupD : List (String × Detail) → String → Option Detail
  | [], _ => none
  | (k1, a) :: rest, k => if k1 = k then some a else lookupD rest k

/-- In-place dict value replacement, insertion at the end for a new key
(Python dict update semantics). -/
def upsertD (acc : List (String × Detail)) (jid : String) (j : Detail) :
    List (String × Detail) :=
  match acc with
  | [] => [(jid, j)]
  | (k1, v) :: rest =>
    if k1 = jid then (k1, j) :: rest else (k1, v) :: upsertD rest jid j

/-- One step of the `unique_jobs` construction of `print_job_details`
(pbs_stats.py lines 722-738): drop falsy `job_id`, re-parse the stored
`start_time` strings with the PBS format (absent or unparseable parses
count as `datetime.min`), and keep the incumbent unless the new row parses
strictly later. -/
def dedupStep (acc : List (String × Detail)) (j : Detail) : List (String × Detail) :=
  if j.job_id = "" then acc
  else
    let current_date :=
      match lookupD acc j.job_id with
      | some v => (parse_pbs_date v.start_time).getD dtmMin
      | none => dtmMin
    let new_date := (parse_pbs_date j.start_time).getD dtmMin
    if lookupD acc j.job_id = none ∨ dtmLt current_date new_date then upsertD acc j.job_id j
    else acc

/-- The sort key of `print_job_details`' final ordering
(pbs_stats.py lines 743-747). -/
def detailSortKey (x : Detail) : Dtm := (parse_pbs_date x.start_time).getD dtmMin

/-- The row sequence `print_job_details` prints (pbs_stats.py
lines 721-747): one entry per `job_id`, ordered by parsed start time,
newest first, stably (`sorted(..., reverse=True)`). -/
def print_job_details (jobs : List Detail) : List Detail :=
  let unique_jobs := (jobs.foldl dedupStep []).map Prod.snd
  insSort (fun a b => decide (dtmLe (detailSortKey b) (detailSortKey a))) unique_jobs

/-- The full historical detail view: `get_job_details` composed with the
dedup-and-sort of `print_job_details`. -/
def detailView (userF machineF daysF : Option String) (now : Dtm)
    (store : List JobRow) : Except Unit (List Detail) :=
  (get_job_details userF machineF daysF now store).map print_job_details

/-- A representative polled job: owner `alice@cluster`, running on
`nodeA/0`, started `Wed Sep 25 14:30:45 2024`. -/
def infoJobA : JobInfo :=
  { Job_Owner := some "alice@cluster"
    exec_host := some "nodeA/0"
    stime := some "Wed Sep 25 14:30:45 2024"
    queue := some "batch"
    Job_Name := some "run1"
    job_state := some "R"
    resources_used := ⟨some "8", some "4gb", some "01:00:00", some "3600"⟩
    Resource_List := ⟨some "8", some "4gb", some "02:00:00", none⟩
    exit_status := none
    Submit_arguments := some "job.sh" }

/-- A polled job whose `exec_host` field is absent (e.g. a queued job). -/
def infoJobNoHost : JobInfo :=
  { infoJobA with exec_host := none, Job_Owner := some "bob@cluster" }

/-- Claim C1.  The spec says a job polled twice with the interval
exceeding the dedup window (here: polls an hour apart, window 5 minutes,
so the gate cutoffs are `datetime('now','-5 minutes')` at 08:00 and at
09:00) yields two stored rows.  The code stores only one: the gate
compares the PBS-format `start_time` text against the ISO cutoff text,
and any letter-initial PBS date is memcmp-greater than any digit-initial
ISO datetime, so the first stored row matches the "recent duplicate"
query forever, whatever the interval. -/
theorem c1_repoll_beyond_window_stores_one_row :
    (collectJobs "2025-10-12 08:55:00" [("42.srv", infoJobA)]
      (collectJobs "2025-10-12 07:55:00" [("42.srv", infoJobA)] [])).length = 1 := by
  decide

/-- Claim C2.  The spec invariant says the store never holds two
observations of the same (job_id, user, machine) triple within the dedup
window.  Counterexample run: the job `7.srv` without `exec_host` polled
twice one minute apart (cutoffs 07:55 and 07:56) is inserted twice — two
identical rows with the same job_id, user, `NULL` machine and the same
start_time — because the gate queries `machine = 'unknown'` while the
insert stored `machine = NULL`, which `=` never matches. -/
theorem c2_repoll_within_window_stores_two_rows :
    collectJobs "2025-10-12 07:56:00" [("7.srv", infoJobNoHost)]
      (collectJobs "2025-10-12 07:55:00" [("7.srv", infoJobNoHost)] []) =
      [mkInsertRow "7.srv" infoJobNoHost, mkInsertRow "7.srv" infoJobNoHost] := by
  decide

/-- Claim C4.  `parse_walltime` handles `"10:30:15"` and `"450"` as the
spec says, but raises `ValueError` on `"2+03:00:00"`: the `':' in s` test
runs before the `'+' in s` test, so the string is split on `':'` into
three parts and `int("2+03")` raises; the documented `D+HH:MM:SS` branch
is unreachable for every well-formed day-prefixed walltime. -/
theorem c4_walltime_shapes :
    parse_walltime "10:30:15" = .ok (some 37815) ∧
      parse_walltime "2+03:00:00" = .error () ∧
      parse_walltime "450" = .ok (some 450) :=
  ⟨rfl, rfl, rfl⟩

/-- Claim C5, counterexample.  The jobs dataset is present and
well-formed, the nodes fetch failed (`none`), yet no job row is written:
the single `try` block aborts the whole cycle, contradicting the claimed
independence of the two ingestion paths. -/
theorem c5_nodes_failure_blocks_job_rows :
    collect_data "2025-10-12 07:55:00" "2025-10-12T08:00:00" none
      (some [("1.srv", infoJobA)]) ⟨[], []⟩ = ⟨[], []⟩ := by
  decide

/-- Claim C5, amended.  Node and job ingestion are not independent: a
failure to fetch or parse either dataset raises inside the single `try`
block before the final `conn.commit()`, so neither dataset's rows are
persisted for that cycle. -/
theorem c5_amended_ingestion_not_independent
    (cutoff timestamp : String) (nodesRes : Option (List (String × String)))
    (jobsRes : Option (List (String × JobInfo))) (db : DB) :
    collect_data cutoff timestamp none jobsRes db = db ∧
      collect_data cutoff timestamp nodesRes none db = db := by
  constructor
  · cases jobsRes <;> rfl
  · cases nodesRes <;> rfl

/-- Claim C6.  Whenever the external `qstat` invocation fails — timeout,
any other raised error, non-zero exit, or malformed JSON output — the
live prober returns the empty list. -/
theorem c6_live_probe_degrades_to_empty
    (userF machineF : Option String) (nowText : String) (run : QstatRun)
    (h : qstatFailed run = true) :
    get_real_time_jobs userF machineF nowText run = [] := by
  cases run with
  | timeout => rfl
  | exc => rfl
  | exited rc parsed =>
    cases parsed with
    | none =>
      by_cases hrc : rc = 0 <;> simp [get_real_time_jobs, hrc]
    | some js =>
      have hrc : rc ≠ 0 := by simpa [qstatFailed] using h
      simp [get_real_time_jobs, hrc]

/-- Concrete instance of `c6_live_probe_degrades_to_empty` at a timed-out
probe. -/
theorem c6_live_probe_degrades_to_empty_witness :
    qstatFailed QstatRun.timeout = true ∧
      get_real_time_jobs none none "2025-10-12 08:00:00" QstatRun.timeout = [] :=
  ⟨rfl, c6_live_probe_degrades_to_empty none none "2025-10-12 08:00:00" QstatRun.timeout rfl⟩

/-- `parse_pbs_date` rejects the empty string. -/
theorem parse_pbs_date_empty : parse_pbs_date "" = none := rfl

/-- A row whose `start_time` is unparseable contributes nothing to
`rowFilter`, for any date bounds. -/
theorem rowFilter_eq_none_of_parse_none (startB endB : Option Dtm) (r : JobRow)
    (h : parse_pbs_date r.start_time = none) : rowFilter startB endB r = none := by
  by_cases he : r.start_time = "" <;> simp [rowFilter, he, h]

/-- Claim C9.  In every filter mode — including the unfiltered all-history
mode — a stored row whose `start_time` is empty or fails to parse as a PBS
date is invisible to the historical summarize path: adding such a row
changes neither `total_jobs` nor any group row. -/
theorem c9_unparseable_rows_excluded_from_summarize
    (daysF dateF startF endF userF machineF : Option String) (now : Dtm)
    (r : JobRow) (rest : List JobRow)
    (h : parse_pbs_date r.start_time = none) :
    get_job_stats daysF dateF startF endF userF machineF now (r :: rest) =
      get_job_stats daysF dateF startF endF userF machineF now rest := by
  unfold get_job_stats
  cases hcb : computeBounds dateF startF endF daysF now with
  | error e => rfl
  | ok trip =>
    obtain ⟨startB, endB, per⟩ := trip
    have hrow : rowFilter startB endB r = none := rowFilter_eq_none_of_parse_none _ _ _ h
    by_cases hnd : nonDatePass userF machineF r = true
    · simp [List.filter_cons, hnd, List.filterMap_cons, hrow]
    · simp [List.filter_cons, hnd]

/-- Concrete instance of `c9_unparseable_rows_excluded_from_summarize`:
a row with `start_time = "garbage"` does not change the all-history
summary over a one-row store. -/
theorem c9_unparseable_rows_excluded_from_summarize_witness :
    parse_pbs_date "garbage" = none ∧
      get_job_stats none none none none none none dtmMin
          (⟨"9.srv", some "carol", some "nodeC", "garbage", infoJobA⟩ ::
            [⟨"1.srv", some "alice", some "nodeA", "Wed Sep 25 14:30:45 2024", infoJobA⟩]) =
        get_job_stats none none none none none none dtmMin
          [⟨"1.srv", some "alice", some "nodeA", "Wed Sep 25 14:30:45 2024", infoJobA⟩] :=
  ⟨rfl, c9_unparseable_rows_excluded_from_summarize none none none none none none dtmMin
    ⟨"9.srv", some "carol", some "nodeC", "garbage", infoJobA⟩
    [⟨"1.srv", some "alice", some "nodeA", "Wed Sep 25 14:30:45 2024", infoJobA⟩] rfl⟩

/-- Claim C10.  For a polled job whose `exec_host` field is absent, the
dedup gate's candidate carries `machine = 'unknown'` while the inserted
row carries `machine = NULL`; SQL equality never matches `NULL`, so no
previously stored row of that job can satisfy the gate and the job is
inserted again on every poll, regardless of the window. -/
theorem c10_absent_exec_host_always_inserts
    (store : List JobRow) (cutoff jid : String) (info : JobInfo)
    (hx : info.exec_host = none)
    (hall : ∀ r ∈ store, r.job_id = jid → r.machine = none) :
    (mkJobData jid info).machine = "unknown" ∧
      (mkInsertRow jid info).machine = none ∧
      (∀ r ∈ store, r.machine = none →
        jobMatchesRecent (mkJobData jid info) cutoff r = false) ∧
      processJob cutoff store jid info = store ++ [mkInsertRow jid info] := by
  refine ⟨by simp [mkJobData, mkExecHost, hx], by simp [mkInsertRow, mkExecHost, hx], ?_, ?_⟩
  · intro r _ hm
    simp [jobMatchesRecent, hm]
  · have hgate : should_store_job (mkJobData jid info) store cutoff = true := by
      unfold should_store_job
      have hc : store.countP (jobMatchesRecent (mkJobData jid info) cutoff) = 0 := by
        rw [List.countP_eq_zero]
        intro r hr
        by_cases hj : r.job_id = jid
        · have hm := hall r hr hj
          simp [jobMatchesRecent, hm]
        · simp [jobMatchesRecent, mkJobData, hj]
      simp [hc]
    simp [processJob, hgate]

/-- Concrete instance of `c10_absent_exec_host_always_inserts`: a second
in-window poll of `7.srv` re-inserts it next to its previously stored
`NULL`-machine row. -/
theorem c10_absent_exec_host_always_inserts_witness :
    (mkJobData "7.srv" infoJobNoHost).machine = "unknown" ∧
      processJob "2025-10-12 07:56:00" [mkInsertRow "7.srv" infoJobNoHost] "7.srv"
          infoJobNoHost =
        [mkInsertRow "7.srv" infoJobNoHost] ++ [mkInsertRow "7.srv" infoJobNoHost] :=
  ⟨(c10_absent_exec_host_always_inserts [mkInsertRow "7.srv" infoJobNoHost]
      "2025-10-12 07:56:00" "7.srv" infoJobNoHost rfl (by decide)).1,
   (c10_absent_exec_host_always_inserts [mkInsertRow "7.srv" infoJobNoHost]
      "2025-10-12 07:56:00" "7.srv" infoJobNoHost rfl (by decide)).2.2.2⟩

/-- Two stored observations of job `123`: `T1 = Wed Sep 18 10:00:00 2024`. -/
def jobRowT1 : JobRow :=
  { job_id := "123"
    user := some "alice"
    machine := some "nodeA"
    start_time := "Wed Sep 18 10:00:00 2024"
    data := infoJobA }

/-- The later observation of job `123`: `T2 = Thu Sep 26 09:00:00 2024`. -/
def jobRowT2 : JobRow := { jobRowT1 with start_time := "Thu Sep 26 09:00:00 2024" }

/-- Claim C3.  Job `123` has observations at `T1` and at the
chronologically later `T2`, yet the detail view returns the single row
carrying `T1` (formatted `18-09-2024 10:00:00`), not `T2`:
`get_job_details` reformats `start_time` to `DD-MM-YYYY HH:MM:SS` before
`print_job_details` re-parses it with the PBS `"%a %b %d %H:%M:%S %Y"`
format, so every parse yields `None`/`datetime.min`, the strictly-newer
update never replaces the incumbent, and the kept row is simply the first
of the SQL `ORDER BY start_time DESC` — a memcmp order on PBS text under
which `"Wed..." > "Thu..."`. -/
theorem c3_detail_view_keeps_older_row :
    parse_pbs_date jobRowT1.start_time = some ⟨2024, 9, 18, 10, 0, 0⟩ ∧
      parse_pbs_date jobRowT2.start_time = some ⟨2024, 9, 26, 9, 0, 0⟩ ∧
      dtmLt ⟨2024, 9, 18, 10, 0, 0⟩ ⟨2024, 9, 26, 9, 0, 0⟩ ∧
      (detailView none none none dtmMin [jobRowT1, jobRowT2]).map
          (fun l => l.map Detail.start_time) =
        .ok ["18-09-2024 10:00:00"] :=
  ⟨rfl, rfl, by decide, rfl⟩

/-- A row whose `start_time` parses exactly to the lower bound passes the
date filter (the `job_dt < start_dt` test is strict, so the lower bound is
inclusive). -/
theorem rowFilter_keeps_lower_boundary (c : Dtm) (r : JobRow)
    (h : parse_pbs_date r.start_time = some c) :
    rowFilter (some c) none r = some ⟨r.user, r.machine.getD "N/A", r.start_time⟩ := by
  have hne : r.start_time ≠ "" := by
    intro he
    rw [he, parse_pbs_date_empty] at h
    exact Option.noConfusion h
  unfold rowFilter
  rw [if_neg hne, h]
  have hlt : ¬ dtmLt c c := by
    unfold dtmLt
    omega
  simp [hlt]

/-- A row whose `start_time` parses exactly to the upper bound is dropped
(the `job_dt >= end_dt` test is non-strict, so the upper bound is
exclusive). -/
theorem rowFilter_drops_upper_boundary (startB : Option Dtm) (e : Dtm) (r : JobRow)
    (h : parse_pbs_date r.start_time = some e) :
    rowFilter startB (some e) r = none := by
  have hne : r.start_time ≠ "" := by
    intro he
    rw [he, parse_pbs_date_empty] at h
    exact Option.noConfusion h
  unfold rowFilter
  rw [if_neg hne, h]
  have hle : dtmLe e e := by
    unfold dtmLe
    omega
  simp [hle]

/-- Claim C8.  Date-bounded summarize queries are inclusive below and
exclusive above.  Part 1: a record whose parseable `start_time` equals the
relative last-N-days cutoff (`now - timedelta(days=N)`) is counted.
Part 2: a record at a range's from-date is counted.  Part 3: a record at
the exclusive to-date upper bound (`end_date + 1 day`, i.e. the `to` of
the half-open `[from, to)` window) contributes nothing at all to the
query result. -/
theorem c8_date_filter_boundaries :
    (∀ (now : Dtm) (dS : String) (n : Int) (userF machineF : Option String)
        (r : JobRow) (rest : List JobRow) (stA stB : StatsResult),
      pyInt dS = some n → dS ≠ "" → dS ≠ "all" →
      nonDatePass userF machineF r = true →
      parse_pbs_date r.start_time = some (subDaysI now n) →
      get_job_stats (some dS) none none none userF machineF now (r :: rest) = .ok stA →
      get_job_stats (some dS) none none none userF machineF now rest = .ok stB →
      stA.total_jobs = stB.total_jobs + 1) ∧
    (∀ (now : Dtm) (sS : String) (sdt : Dtm) (userF machineF : Option String)
        (r : JobRow) (rest : List JobRow) (stA stB : StatsResult),
      parseInputDmy sS = some sdt →
      nonDatePass userF machineF r = true →
      parse_pbs_date r.start_time = some sdt →
      get_job_stats none none (some sS) none userF machineF now (r :: rest) = .ok stA →
      get_job_stats none none (some sS) none userF machineF now rest = .ok stB →
      stA.total_jobs = stB.total_jobs + 1) ∧
    (∀ (now : Dtm) (sS eS : String) (sdt edt : Dtm) (userF machineF : Option String)
        (r : JobRow) (rest : List JobRow),
      parseInputDmy sS = some sdt →
      parseInputDmy eS = some edt →
      parse_pbs_date r.start_time = some (addDaysI edt 1) →
      get_job_stats none none (some sS) (some eS) userF machineF now (r :: rest) =
        get_job_stats none none (some sS) (some eS) userF machineF now rest) := by
  refine ⟨?_, ?_, ?_⟩
  · intro now dS n userF machineF r rest stA stB hpy hne hnall hnd hp hA hB
    have hcb : computeBounds none none none (some dS) now =
        .ok (some (subDaysI now n), none, "Last " ++ dS ++ " days") := by
      simp only [computeBounds]
      rw [if_pos ⟨hne, hnall⟩, hpy]
    have hrf := rowFilter_keeps_lower_boundary (subDaysI now n) r hp
    unfold get_job_stats at hA hB
    rw [hcb] at hA hB
    rw [List.filter_cons_of_pos hnd] at hA
    simp only [List.filterMap_cons, hrf] at hA
    simp only [] at hB
    rw [Except.ok.injEq] at hA hB
    subst hA
    subst hB
    simp
  · intro now sS sdt userF machineF r rest stA stB hdmy hnd hp hA hB
    have hcb : computeBounds none (some sS) none none now =
        .ok (some sdt, none, "From date: " ++ sS) := by
      simp only [computeBounds]
      rw [hdmy]
    have hrf := rowFilter_keeps_lower_boundary sdt r hp
    unfold get_job_stats at hA hB
    rw [hcb] at hA hB
    rw [List.filter_cons_of_pos hnd] at hA
    simp only [List.filterMap_cons, hrf] at hA
    simp only [] at hB
    rw [Except.ok.injEq] at hA hB
    subst hA
    subst hB
    simp
  · intro now sS eS sdt edt userF machineF r rest hs he hp
    have hcb : computeBounds none (some sS) (some eS) none now =
        .ok (some sdt, some (addDaysI edt 1), "Date range: " ++ sS ++ " to " ++ eS) := by
      simp only [computeBounds]
      rw [hs, he]
    have hrf := rowFilter_drops_upper_boundary (some sdt) (addDaysI edt 1) r hp
    unfold get_job_stats
    rw [hcb]
    by_cases hnd : nonDatePass userF machineF r = true
    · rw [List.filter_cons_of_pos hnd]
      simp only [List.filterMap_cons, hrf]
    · rw [List.filter_cons_of_neg (by simpa using hnd)]

/-- Projection of a summarize result's `total_jobs` (0 for the raised
case); used to state concrete instances. -/
def statsTotal (e : Except Unit StatsResult) : Nat :=
  match e with
  | .ok st => st.total_jobs
  | .error _ => 0

/-- A row exactly at the last-7-days cutoff of `now = 2024-10-02 08:00:00`. -/
def rowAtRelCutoff : JobRow :=
  { job_id := "5.srv"
    user := some "alice"
    machine := some "nodeA"
    start_time := "Wed Sep 25 08:00:00 2024"
    data := infoJobA }

/-- A row exactly at the from-date `25-09-2024`. -/
def rowAtFromDate : JobRow :=
  { rowAtRelCutoff with start_time := "Wed Sep 25 00:00:00 2024" }

/-- A row exactly at the exclusive upper bound of the range ending
`25-09-2024` (i.e. at `2024-09-26 00:00:00`). -/
def rowAtUpperBound : JobRow :=
  { rowAtRelCutoff with start_time := "Thu Sep 26 00:00:00 2024" }

/-- Concrete instance of `c8_date_filter_boundaries`: the cutoff row and
the from-date row are counted, the upper-bound row leaves the range query
untouched. -/
theorem c8_date_filter_boundaries_witness :
    statsTotal (get_job_stats (some "7") none none none none none ⟨2024, 10, 2, 8, 0, 0⟩
          [rowAtRelCutoff]) =
        statsTotal (get_job_stats (some "7") none none none none none ⟨2024, 10, 2, 8, 0, 0⟩
          []) + 1 ∧
      statsTotal (get_job_stats none none (some "25-09-2024") none none none
          ⟨2024, 10, 2, 8, 0, 0⟩ [rowAtFromDate]) =
        statsTotal (get_job_stats none none (some "25-09-2024") none none none
          ⟨2024, 10, 2, 8, 0, 0⟩ []) + 1 ∧
      get_job_stats none none (some "01-09-2024") (some "25-09-2024") none none
          ⟨2024, 10, 2, 8, 0, 0⟩ [rowAtUpperBound] =
        get_job_stats none none (some "01-09-2024") (some "25-09-2024") none none
          ⟨2024, 10, 2, 8, 0, 0⟩ [] := by
  refine ⟨?_, ?_, ?_⟩
  · exact c8_date_filter_boundaries.1 ⟨2024, 10, 2, 8, 0, 0⟩ "7" 7 none none
      rowAtRelCutoff [] _ _ rfl (by decide) (by decide) (by decide) rfl rfl rfl
  · exact c8_date_filter_boundaries.2.1 ⟨2024, 10, 2, 8, 0, 0⟩ "25-09-2024"
      ⟨2024, 9, 25, 0, 0, 0⟩ none none rowAtFromDate [] _ _ rfl (by decide) rfl rfl rfl
  · exact c8_date_filter_boundaries.2.2 ⟨2024, 10, 2, 8, 0, 0⟩ "01-09-2024" "25-09-2024"
      ⟨2024, 9, 1, 0, 0, 0⟩ ⟨2024, 9, 25, 0, 0, 0⟩ none none rowAtUpperBound [] rfl rfl rfl

/-- `dtmLe` is reflexive. -/
theorem dtmLe_refl (a : Dtm) : dtmLe a a := by
  unfold dtmLe
  omega

/-- `dtmLe` is transitive. -/
theorem dtmLe_trans {a b c : Dtm} (h1 : dtmLe a b) (h2 : dtmLe b c) : dtmLe a c := by
  unfold dtmLe at *
  omega

/-- Strict order implies order. -/
theorem dtmLe_of_lt {a b : Dtm} (h : dtmLt a b) : dtmLe a b := by
  unfold dtmLt at h
  unfold dtmLe
  omega

/-- Totality of the datetime order. -/
theorem dtmLe_of_not_lt {a b : Dtm} (h : ¬ dtmLt a b) : dtmLe b a := by
  unfold dtmLt at h
  unfold dtmLe
  omega

/-- The summarize key of a stored row, after the SELECT's
`COALESCE(machine, 'N/A')`. -/
def storeKey (r : JobRow) : Option String × String := (r.user, r.machine.getD "N/A")

/-- The filtered-jobs dictionary a row turns into when no date bound
applies (the image of `rowFilter none none`). -/
def toFJob (r : JobRow) : FJob := ⟨r.user, r.machine.getD "N/A", r.start_time⟩

/-- Number of filtered jobs with a given group key. -/
def countKey (fj : List FJob) (k : Option String × String) : Nat :=
  fj.countP (fun j => decide (keyF j = k))

/-- The running maximum the `last_runs` dictionary maintains for key `k`,
starting from `o`. -/
def runMax (o : Option Dtm) (fj : List FJob) (k : Option String × String) : Option Dtm :=
  fj.foldl
    (fun acc j =>
      if keyF j = k then
        some (match acc with
          | none => dtF j
          | some d => if dtmLt d (dtF j) then dtF j else d)
      else acc) o

/-- Looking a key up after a `bump`. -/
theorem lookupA_bump (acc : List ((Option String × String) × Nat))
    (k0 k : Option String × String) :
    lookupA (bump acc k0) k =
      if k = k0 then some ((lookupA acc k).getD 0 + 1) else lookupA acc k := by
  induction acc with
  | nil =>
    by_cases h : k = k0
    · subst h
      simp [bump, lookupA]
    · have h2 : ¬ (k0 = k) := fun he => h he.symm
      simp [bump, lookupA, h, h2]
  | cons hd tl ih =>
    obtain ⟨k1, n⟩ := hd
    by_cases h1 : k1 = k0
    · subst h1
      by_cases h2 : k1 = k
      · subst h2
        simp [bump, lookupA]
      · have h3 : ¬ (k = k1) := fun he => h2 he.symm
        simp [bump, lookupA, h2, h3]
    · by_cases h2 : k1 = k
      · subst h2
        simp [bump, lookupA, h1]
      · simp [bump, lookupA, h1, h2, ih]

/-- Looking a key up after folding `bump` over the filtered jobs: the
count grows by the key's multiplicity. -/
theorem lookupA_foldBump (fj : List FJob) :
    ∀ (acc : List ((Option String × String) × Nat)) (k : Option String × String),
      lookupA (fj.foldl (fun a j => bump a (keyF j)) acc) k =
        match lookupA acc k with
        | some n => some (n + countKey fj k)
        | none => if countKey fj k = 0 then none else some (countKey fj k) := by
  induction fj with
  | nil =>
    intro acc k
    cases hacc : lookupA acc k <;> simp [countKey, hacc]
  | cons j fj ih =>
    intro acc k
    rw [List.foldl_cons, ih, lookupA_bump]
    by_cases hk : k = keyF j
    · subst hk
      cases hacc : lookupA acc (keyF j) with
      | none =>
        simp [countKey, List.countP_cons, hacc, Nat.add_comm, Nat.add_assoc,
          Nat.add_left_comm]
      | some n =>
        simp [countKey, List.countP_cons, hacc, Nat.add_comm, Nat.add_assoc,
          Nat.add_left_comm]
    · have hkj : ¬ (keyF j = k) := fun he => hk he.symm
      cases hacc : lookupA acc k with
      | none => simp [countKey, List.countP_cons, hk, hkj, hacc]
      | some n => simp [countKey, List.countP_cons, hk, hkj, hacc]

/-- Looking a key up after an `upLast` update. -/
theorem lookupA_upLast (acc : List ((Option String × String) × Dtm))
    (k0 k : Option String × String) (d : Dtm) :
    lookupA (upLast acc k0 d) k =
      if k = k0 then
        some (match lookupA acc k with
          | none => d
          | some cur => if dtmLt cur d then d else cur)
      else lookupA acc k := by
  induction acc with
  | nil =>
    by_cases h : k = k0
    · subst h
      simp [upLast, lookupA]
    · have h2 : ¬ (k0 = k) := fun he => h he.symm
      simp [upLast, lookupA, h, h2]
  | cons hd tl ih =>
    obtain ⟨k1, d1⟩ := hd
    by_cases h1 : k1 = k0
    · subst h1
      by_cases h2 : k1 = k
      · subst h2
        simp [upLast, lookupA]
      · have h3 : ¬ (k = k1) := fun he => h2 he.symm
        simp [upLast, lookupA, h2, h3]
    · by_cases h2 : k1 = k
      · subst h2
        simp [upLast, lookupA, h1]
      · simp [upLast, lookupA, h1, h2, ih]

/-- Looking a key up after folding `upLast` over the filtered jobs gives
the running maximum. -/
theorem lookupA_foldLast (fj : List FJob) :
    ∀ (acc : List ((Option String × String) × Dtm)) (k : Option String × String),
      lookupA (fj.foldl (fun a j => upLast a (keyF j) (dtF j)) acc) k =
        runMax (lookupA acc k) fj k := by
  induction fj with
  | nil =>
    intro acc k
    rfl
  | cons j fj ih =>
    intro acc k
    rw [List.foldl_cons, ih, lookupA_upLast]
    unfold runMax
    rw [List.foldl_cons]
    by_cases hk : k = keyF j
    · have hkj : keyF j = k := hk.symm
      simp [hkj]
    · have hkj : ¬ (keyF j = k) := fun he => hk he.symm
      simp [hk, hkj]

/-- Unfolding one step of the running maximum. -/
theorem runMax_cons (o : Option Dtm) (k : Option String × String) (j : FJob) (fj : List FJob) :
    runMax o (j :: fj) k =
      runMax
        (if keyF j = k then
          some (match o with
            | none => dtF j
            | some d => if dtmLt d (dtF j) then dtF j else d)
        else o) fj k := rfl

/-- A running maximum that produced a value got it either from its seed or
from some matching filtered job. -/
theorem runMax_mem (fj : List FJob) :
    ∀ (o : Option Dtm) (k : Option String × String) (d : Dtm),
      runMax o fj k = some d → o = some d ∨ ∃ j, j ∈ fj ∧ keyF j = k ∧ dtF j = d := by
  induction fj with
  | nil =>
    intro o k d h
    exact Or.inl h
  | cons j fj ih =>
    intro o k d h
    rw [runMax_cons] at h
    by_cases hk : keyF j = k
    · rw [if_pos hk] at h
      cases o with
      | none =>
        rcases ih _ k d h with hstep | ⟨j2, hj2, hkey, hdt⟩
        · exact Or.inr ⟨j, List.mem_cons_self j fj, hk, Option.some_injective _ hstep⟩
        · exact Or.inr ⟨j2, List.mem_cons_of_mem j hj2, hkey, hdt⟩
      | some d0 =>
        simp only [] at h
        by_cases hlt : dtmLt d0 (dtF j)
        · rw [if_pos hlt] at h
          rcases ih _ k d h with hstep | ⟨j2, hj2, hkey, hdt⟩
          · exact Or.inr ⟨j, List.mem_cons_self j fj, hk, Option.some_injective _ hstep⟩
          · exact Or.inr ⟨j2, List.mem_cons_of_mem j hj2, hkey, hdt⟩
        · rw [if_neg hlt] at h
          rcases ih _ k d h with hstep | ⟨j2, hj2, hkey, hdt⟩
          · exact Or.inl hstep
          · exact Or.inr ⟨j2, List.mem_cons_of_mem j hj2, hkey, hdt⟩
    · rw [if_neg hk] at h
      rcases ih _ k d h with hstep | ⟨j2, hj2, hkey, hdt⟩
      · exact Or.inl hstep
      · exact Or.inr ⟨j2, List.mem_cons_of_mem j hj2, hkey, hdt⟩

/-- The running maximum dominates its seed and every matching job. -/
theorem runMax_ge (fj : List FJob) :
    ∀ (o : Option Dtm) (k : Option String × String) (d : Dtm),
      runMax o fj k = some d →
        (∀ d0, o = some d0 → dtmLe d0 d) ∧
          ∀ j ∈ fj, keyF j = k → dtmLe (dtF j) d := by
  induction fj with
  | nil =>
    intro o k d h
    refine ⟨?_, ?_⟩
    · intro d0 ho
      rw [ho] at h
      rw [Option.some_injective _ h]
      exact dtmLe_refl d
    · intro j hj
      cases hj
  | cons j fj ih =>
    intro o k d h
    rw [runMax_cons] at h
    by_cases hk : keyF j = k
    · rw [if_pos hk] at h
      cases o with
      | none =>
        have hj_le : dtmLe (dtF j) d := (ih _ k d h).1 _ rfl
        refine ⟨fun d0 ho => Option.noConfusion ho, ?_⟩
        intro j2 hj2 hkey
        rcases List.mem_cons.mp hj2 with rfl | hmem
        · exact hj_le
        · exact (ih _ k d h).2 j2 hmem hkey
      | some d0 =>
        simp only [] at h
        by_cases hlt : dtmLt d0 (dtF j)
        · rw [if_pos hlt] at h
          have hj_le : dtmLe (dtF j) d := (ih _ k d h).1 _ rfl
          refine ⟨?_, ?_⟩
          · intro d1 ho
            cases ho
            exact dtmLe_trans (dtmLe_of_lt hlt) hj_le
          · intro j2 hj2 hkey
            rcases List.mem_cons.mp hj2 with rfl | hmem
            · exact hj_le
            · exact (ih _ k d h).2 j2 hmem hkey
        · rw [if_neg hlt] at h
          have h0_le : dtmLe d0 d := (ih _ k d h).1 _ rfl
          refine ⟨?_, ?_⟩
          · intro d1 ho
            cases ho
            exact h0_le
          · intro j2 hj2 hkey
            rcases List.mem_cons.mp hj2 with rfl | hmem
            · exact dtmLe_trans (dtmLe_of_not_lt hlt) h0_le
            · exact (ih _ k d h).2 j2 hmem hkey
    · rw [if_neg hk] at h
      refine ⟨(ih _ k d h).1, ?_⟩
      intro j2 hj2 hkey
      rcases List.mem_cons.mp hj2 with rfl | hmem
      · exact absurd hkey hk
      · exact (ih _ k d h).2 j2 hmem hkey

/-- A running maximum that stays empty saw no matching job. -/
theorem runMax_none (fj : List FJob) :
    ∀ (o : Option Dtm) (k : Option String × String),
      runMax o fj k = none → o = none ∧ countKey fj k = 0 := by
  induction fj with
  | nil =>
    intro o k h
    exact ⟨h, rfl⟩
  | cons j fj ih =>
    intro o k h
    rw [runMax_cons] at h
    by_cases hk : keyF j = k
    · rw [if_pos hk] at h
      have := (ih _ k h).1
      exact absurd this (by simp)
    · rw [if_neg hk] at h
      have h2 := ih _ k h
      refine ⟨h2.1, ?_⟩
      have := h2.2
      simp only [countKey, List.countP_cons, hk] at *
      simp [this]

/-- No-duplicate-keys predicate on an association list. -/
def keysND {α : Type} (l : List ((Option String × String) × α)) : Prop :=
  (l.map Prod.fst).Nodup

/-- `bump` adds at most the bumped key. -/
theorem mem_keys_bump (acc : List ((Option String × String) × Nat))
    (k0 a : Option String × String) :
    a ∈ (bump acc k0).map Prod.fst → a ∈ acc.map Prod.fst ∨ a = k0 := by
  induction acc with
  | nil =>
    intro h
    simp [bump] at h
    exact Or.inr h
  | cons hd tl ih =>
    obtain ⟨k1, n⟩ := hd
    by_cases h1 : k1 = k0
    · intro h
      simp only [bump, if_pos h1] at h
      exact Or.inl h
    · intro h
      simp only [bump, if_neg h1, List.map_cons, List.mem_cons] at h
      rcases h with rfl | h
      · exact Or.inl (by simp)
      · rcases ih h with hmem | rfl
        · exact Or.inl (by simp [hmem])
        · exact Or.inr rfl

/-- `bump` preserves key uniqueness. -/
theorem keysND_bump (acc : List ((Option String × String) × Nat))
    (k0 : Option String × String) (h : keysND acc) : keysND (bump acc k0) := by
  induction acc with
  | nil =>
    simp [keysND, bump]
  | cons hd tl ih =>
    obtain ⟨k1, n⟩ := hd
    simp only [keysND, List.map_cons, List.nodup_cons] at h
    by_cases h1 : k1 = k0
    · simp only [keysND, bump, if_pos h1, List.map_cons, List.nodup_cons]
      exact h
    · simp only [keysND, bump, if_neg h1, List.map_cons, List.nodup_cons]
      refine ⟨?_, ih h.2⟩
      intro hmem
      rcases mem_keys_bump tl k0 k1 hmem with hmem2 | rfl
      · exact h.1 hmem2
      · exact h1 rfl

/-- Folding `bump` preserves key uniqueness. -/
theorem keysND_foldBump (fj : List FJob) :
    ∀ (acc : List ((Option String × String) × Nat)), keysND acc →
      keysND (fj.foldl (fun a j => bump a (keyF j)) acc) := by
  induction fj with
  | nil =>
    intro acc h
    exact h
  | cons j fj ih =>
    intro acc h
    rw [List.foldl_cons]
    exact ih _ (keysND_bump acc (keyF j) h)

/-- On an association list with unique keys, membership determines the
lookup. -/
theorem lookupA_of_mem {α : Type} (l : List ((Option String × String) × α))
    (hnd : keysND l) (k : Option String × String) (a : α) :
    (k, a) ∈ l → lookupA l k = some a := by
  induction l with
  | nil =>
    intro h
    cases h
  | cons hd tl ih =>
    obtain ⟨k1, a1⟩ := hd
    simp only [keysND, List.map_cons, List.nodup_cons] at hnd
    intro h
    rcases List.mem_cons.mp h with heq | hmem
    · obtain ⟨rfl, rfl⟩ := Prod.mk.injEq .. ▸ heq
      · simp [lookupA]
    · by_cases h1 : k1 = k
      · subst h1
        exact absurd (by simpa using List.mem_map_of_mem Prod.fst hmem) hnd.1
      · simp only [lookupA, if_neg h1]
        exact ih hnd.2 hmem

/-- A successful lookup is a member. -/
theorem mem_of_lookupA {α : Type} (l : List ((Option String × String) × α))
    (k : Option String × String) (a : α) :
    lookupA l k = some a → (k, a) ∈ l := by
  induction l with
  | nil =>
    intro h
    cases h
  | cons hd tl ih =>
    obtain ⟨k1, a1⟩ := hd
    by_cases h1 : k1 = k
    · subst h1
      simp only [lookupA, if_pos rfl]
      intro h
      exact List.mem_cons.mpr (Or.inl (by rw [Option.some_injective _ h]))
    · simp only [lookupA, if_neg h1]
      intro h
      exact List.mem_cons.mpr (Or.inr (ih h))

/-- Membership through stable insertion. -/
theorem mem_insertDesc {α : Type} (le : α → α → Bool) (x a : α) (l : List α) :
    a ∈ insertDesc le x l ↔ a = x ∨ a ∈ l := by
  induction l with
  | nil => simp [insertDesc]
  | cons b bs ih =>
    by_cases h : le x b
    · simp [insertDesc, h]
    · simp [insertDesc, h, ih]
      tauto

/-- Membership through the stable sort. -/
theorem mem_insSort {α : Type} (le : α → α → Bool) (a : α) (l : List α) :
    a ∈ insSort le l ↔ a ∈ l := by
  induction l with
  | nil => simp [insSort]
  | cons b bs ih =>
    simp [insSort, mem_insertDesc, ih]

/-- The paired grouping fold of `get_job_stats` is the pair of the two
single-dictionary folds. -/
theorem groupFold_eq (fj : List FJob) :
    groupFold fj =
      (fj.foldl (fun a j => bump a (keyF j)) [],
        fj.foldl (fun a j => upLast a (keyF j) (dtF j)) []) := by
  suffices h : ∀ (a : List ((Option String × String) × Nat))
      (b : List ((Option String × String) × Dtm)),
      fj.foldl (fun acc j => (bump acc.1 (keyF j), upLast acc.2 (keyF j) (dtF j))) (a, b) =
        (fj.foldl (fun a j => bump a (keyF j)) a,
          fj.foldl (fun a j => upLast a (keyF j) (dtF j)) b) by
    exact h [] []
  induction fj with
  | nil =>
    intro a b
    rfl
  | cons j fj ih =>
    intro a b
    rw [List.foldl_cons, List.foldl_cons, List.foldl_cons]
    exact ih _ _

/-- Field ranges guaranteed for every datetime produced by the parsers. -/
def validDtm (t : Dtm) : Prop :=
  1 ≤ t.month ∧ t.month ≤ 12 ∧ 1 ≤ t.day ∧ t.day ≤ 31 ∧
    t.hour ≤ 23 ∧ t.minute ≤ 59 ∧ t.second ≤ 59

/-- Months have at most 31 days. -/
theorem daysInMonth_le (y m : Nat) : daysInMonth y m ≤ 31 := by
  unfold daysInMonth
  split_ifs <;> omega

/-- The checked constructor only produces in-range datetimes. -/
theorem mkDtmChecked_valid {y m d h mi s : Nat} {t : Dtm}
    (hc : mkDtmChecked y m d h mi s = some t) : validDtm t := by
  unfold mkDtmChecked at hc
  split at hc
  · rename_i hcond
    obtain rfl := Option.some_injective _ hc
    have hdm := daysInMonth_le y m
    unfold validDtm
    simp only
    omega
  · cases hc

/-- Every datetime produced by `parse_pbs_date` is in range. -/
theorem parse_pbs_date_valid {s : String} {t : Dtm}
    (h : parse_pbs_date s = some t) : validDtm t := by
  unfold parse_pbs_date at h
  repeat' split at h
  all_goals first
    | exact mkDtmChecked_valid h
    | cases h

/-- `dtmKey` is injective on in-range datetimes. -/
theorem dtmKey_inj_valid {a b : Dtm} (ha : validDtm a) (hb : validDtm b)
    (h : dtmKey a = dtmKey b) : a = b := by
  obtain ⟨a1, a2, a3, a4, a5, a6⟩ := a
  obtain ⟨b1, b2, b3, b4, b5, b6⟩ := b
  unfold validDtm at ha hb
  unfold dtmKey at h
  simp only at ha hb h ⊢
  simp only [Dtm.mk.injEq]
  omega

/-- With no user filter, the base query keeps exactly the rows with a
non-`NULL` user. -/
theorem filter_nonDate_all (store : List JobRow)
    (h1 : ∀ r ∈ store, r.user ≠ none) :
    store.filter (nonDatePass none none) = store := by
  apply List.filter_eq_self.mpr
  intro r hr
  simp [nonDatePass, h1 r hr]

/-- With no date bounds, the Python date-filter loop keeps every row whose
`start_time` parses, producing exactly the coalesced dictionaries. -/
theorem filterMap_rowFilter_all (store : List JobRow)
    (h2 : ∀ r ∈ store, (parse_pbs_date r.start_time).isSome) :
    store.filterMap (rowFilter none none) = store.map toFJob := by
  induction store with
  | nil => rfl
  | cons r rs ih =>
    obtain ⟨d, hd⟩ := Option.isSome_iff_exists.mp (h2 r (List.mem_cons_self r rs))
    have hne : r.start_time ≠ "" := by
      intro he
      rw [he, parse_pbs_date_empty] at hd
      exact Option.noConfusion hd
    have hr : rowFilter none none r = some (toFJob r) := by
      unfold rowFilter
      rw [if_neg hne, hd]
      rfl
    rw [List.filterMap_cons, hr, List.map_cons,
      ih (fun r2 hr2 => h2 r2 (List.mem_cons_of_mem r hr2))]

/-- The group key commutes with the row-to-dictionary map. -/
theorem keyF_toFJob (r : JobRow) : keyF (toFJob r) = storeKey r := rfl

/-- The compared datetime of a mapped row is its parsed `start_time`. -/
theorem dtF_toFJob {r : JobRow} {d : Dtm} (h : parse_pbs_date r.start_time = some d) :
    dtF (toFJob r) = d := by
  simp [dtF, toFJob, h]

/-- Group multiplicities commute with the row-to-dictionary map. -/
theorem countKey_map (store : List JobRow) (k : Option String × String) :
    countKey (store.map toFJob) k = store.countP (fun r => decide (storeKey r = k)) := by
  unfold countKey
  rw [List.countP_map]
  rfl

/-- The summary rows of a summarize result (empty for the raised case);
projection used to state properties of `get_job_stats`. -/
def statsRows (e : Except Unit StatsResult) : List SummaryRow :=
  match e with
  | .ok st => st.results
  | .error _ => []

/-- Shape of the all-history summarize result under the collector's row
discipline (non-`NULL` users, parseable start times). -/
theorem statsRows_all_history (store : List JobRow) (now : Dtm)
    (h1 : ∀ r ∈ store, r.user ≠ none)
    (h2 : ∀ r ∈ store, (parse_pbs_date r.start_time).isSome) :
    statsRows (get_job_stats none none none none none none now store) =
      insSort (fun a b => decide (b.jobs ≤ a.jobs))
        ((((store.map toFJob).foldl (fun a j => bump a (keyF j)) [])).map
          (fun p => mkSummaryRow p.1 p.2
            (lookupA ((store.map toFJob).foldl (fun a j => upLast a (keyF j) (dtF j)) [])
              p.1))) := by
  have hred : statsRows (get_job_stats none none none none none none now store) =
      insSort (fun a b => decide (b.jobs ≤ a.jobs))
        ((groupFold ((store.filter (nonDatePass none none)).filterMap
            (rowFilter none none))).1.map
          (fun p => mkSummaryRow p.1 p.2
            (lookupA (groupFold ((store.filter (nonDatePass none none)).filterMap
              (rowFilter none none))).2 p.1))) := rfl
  rw [hred, filter_nonDate_all store h1, filterMap_rowFilter_all store h2, groupFold_eq]

/-- Claim C7.  Over any store obeying the collector's row discipline
(users non-`NULL`, `start_time` parseable — rows violating the latter are
excluded by the filter loop, see the C9 theorem), the all-history
summarize returns exactly one row per inhabited (user, machine) group,
whose `jobs` field is the number of observations in the group and whose
`last_run` is the latest parseable `start_time` of the group rendered
through `strftime` and `format_pbs_date`. -/
theorem c7_summarize_groups_and_counts (store : List JobRow) (now : Dtm)
    (h1 : ∀ r ∈ store, r.user ≠ none)
    (h2 : ∀ r ∈ store, (parse_pbs_date r.start_time).isSome)
    (row : SummaryRow) :
    row ∈ statsRows (get_job_stats none none none none none none now store) ↔
      ((∃ r ∈ store, storeKey r = (row.user, row.machine)) ∧
        row.jobs = store.countP (fun r => decide (storeKey r = (row.user, row.machine))) ∧
        ∃ d : Dtm,
          (∃ r ∈ store, storeKey r = (row.user, row.machine) ∧
            parse_pbs_date r.start_time = some d) ∧
          (∀ r ∈ store, storeKey r = (row.user, row.machine) →
            ∀ d2, parse_pbs_date r.start_time = some d2 → dtmLe d2 d) ∧
          row.last_run = format_pbs_date (strftimePbs d)) := by
  rw [statsRows_all_history store now h1 h2, mem_insSort, List.mem_map]
  set fj := store.map toFJob with hfj
  have hndk : keysND (fj.foldl (fun a j => bump a (keyF j)) []) :=
    keysND_foldBump fj [] (by simp [keysND])
  have hlookC : ∀ k2, lookupA (fj.foldl (fun a j => bump a (keyF j)) []) k2 =
      if countKey fj k2 = 0 then none else some (countKey fj k2) := by
    intro k2
    simpa using lookupA_foldBump fj [] k2
  have hlookL : ∀ k2, lookupA (fj.foldl (fun a j => upLast a (keyF j) (dtF j)) []) k2 =
      runMax none fj k2 := by
    intro k2
    simpa using lookupA_foldLast fj [] k2
  constructor
  · rintro ⟨⟨k2, n⟩, hpmem, hrow⟩
    have hl : lookupA (fj.foldl (fun a j => bump a (keyF j)) []) k2 = some n :=
      lookupA_of_mem _ hndk k2 n hpmem
    rw [hlookC k2] at hl
    by_cases hc0 : countKey fj k2 = 0
    · rw [if_pos hc0] at hl
      cases hl
    · rw [if_neg hc0] at hl
      have hn : n = countKey fj k2 := (Option.some_injective _ hl).symm
      obtain ⟨dmax, hdm⟩ : ∃ dmax, runMax none fj k2 = some dmax := by
        cases hrm0 : runMax none fj k2 with
        | none => exact absurd (runMax_none fj none k2 hrm0).2 hc0
        | some dmax => exact ⟨dmax, rfl⟩
      subst hrow
      have hkey_eq : ((mkSummaryRow k2 n
          (lookupA (fj.foldl (fun a j => upLast a (keyF j) (dtF j)) []) k2)).user,
          (mkSummaryRow k2 n
            (lookupA (fj.foldl (fun a j => upLast a (keyF j) (dtF j)) []) k2)).machine) =
          k2 := by
        simp [mkSummaryRow]
      rw [hkey_eq]
      have hcnt := countKey_map store k2
      refine ⟨?_, ?_, dmax, ?_, ?_, ?_⟩
      · have hpos : 0 < store.countP (fun r => decide (storeKey r = k2)) := by
          rw [hfj] at hc0
          rw [countKey_map store k2] at hc0
          omega
        obtain ⟨r, hr, hpr⟩ := List.countP_pos_iff.mp hpos
        exact ⟨r, hr, of_decide_eq_true hpr⟩
      · show n = _
        rw [hn, hfj, countKey_map store k2]
      · rcases runMax_mem fj none k2 dmax hdm with hcontra | ⟨j, hj, hkey, hdt⟩
        · cases hcontra
        · rw [hfj] at hj
          obtain ⟨r, hr, rfl⟩ := List.mem_map.mp hj
          obtain ⟨v, hv⟩ := Option.isSome_iff_exists.mp (h2 r hr)
          refine ⟨r, hr, hkey, ?_⟩
          rw [hv]
          rw [dtF_toFJob hv] at hdt
          rw [hdt]
      · intro r hr hkr d2 hd2
        have hjmem : toFJob r ∈ fj := by
          rw [hfj]
          exact List.mem_map_of_mem toFJob hr
        have := (runMax_ge fj none k2 dmax hdm).2 (toFJob r) hjmem
          (by rw [keyF_toFJob]; exact hkr)
        rw [dtF_toFJob hd2] at this
        exact this
      · show (mkSummaryRow k2 n
          (lookupA (fj.foldl (fun a j => upLast a (keyF j) (dtF j)) []) k2)).last_run = _
        simp only [mkSummaryRow]
        rw [hlookL k2, hdm]
  · rintro ⟨⟨r0, hr0, hkey0⟩, hjobs, d, ⟨rm, hrm, hkeym, hparsem⟩, hge, hlast⟩
    have hcnt := countKey_map store (row.user, row.machine)
    have hpos : countKey fj (row.user, row.machine) ≠ 0 := by
      rw [hfj, hcnt]
      have : 0 < store.countP (fun r => decide (storeKey r = (row.user, row.machine))) :=
        List.countP_pos_iff.mpr ⟨r0, hr0, decide_eq_true hkey0⟩
      omega
    obtain ⟨dmax, hdm⟩ : ∃ dmax, runMax none fj (row.user, row.machine) = some dmax := by
      cases hrm0 : runMax none fj (row.user, row.machine) with
      | none => exact absurd (runMax_none fj none _ hrm0).2 hpos
      | some dmax => exact ⟨dmax, rfl⟩
    have hval_d : validDtm d := parse_pbs_date_valid hparsem
    obtain ⟨r2, hr2, hkey2, hparse2⟩ :
        ∃ r2 ∈ store, storeKey r2 = (row.user, row.machine) ∧
          parse_pbs_date r2.start_time = some dmax := by
      rcases runMax_mem fj none _ dmax hdm with hcontra | ⟨j, hj, hkey, hdt⟩
      · cases hcontra
      · rw [hfj] at hj
        obtain ⟨r2, hr2, rfl⟩ := List.mem_map.mp hj
        obtain ⟨v, hv⟩ := Option.isSome_iff_exists.mp (h2 r2 hr2)
        refine ⟨r2, hr2, hkey, ?_⟩
        rw [hv]
        rw [dtF_toFJob hv] at hdt
        rw [hdt]
    have hval_dmax : validDtm dmax := parse_pbs_date_valid hparse2
    have h1le : dtmLe dmax d := hge r2 hr2 hkey2 dmax hparse2
    have h2le : dtmLe d dmax := by
      have hjmem : toFJob rm ∈ fj := by
        rw [hfj]
        exact List.mem_map_of_mem toFJob hrm
      have := (runMax_ge fj none _ dmax hdm).2 (toFJob rm) hjmem
        (by rw [keyF_toFJob]; exact hkeym)
      rw [dtF_toFJob hparsem] at this
      exact this
    have hd_eq : d = dmax := dtmKey_inj_valid hval_d hval_dmax (Nat.le_antisymm h2le h1le)
    have hlookc : lookupA (fj.foldl (fun a j => bump a (keyF j)) [])
        (row.user, row.machine) = some (countKey fj (row.user, row.machine)) := by
      rw [hlookC, if_neg hpos]
    refine ⟨((row.user, row.machine), countKey fj (row.user, row.machine)),
      mem_of_lookupA _ _ _ hlookc, ?_⟩
    simp only [mkSummaryRow]
    rw [hlookL, hdm]
    obtain ⟨u, m, j, l⟩ := row
    simp only at hjobs hlast hcnt ⊢
    rw [show j = countKey fj (u, m) from by rw [hfj, hcnt]; exact hjobs]
    rw [show l = format_pbs_date (strftimePbs dmax) from by rw [hlast, hd_eq]]

/-- The spec's synthetic store: three observations of (alice, nodeA) and
two of (bob, nodeB), all with parseable start times. -/
def summStore : List JobRow :=
  [⟨"a1", some "alice", some "nodeA", "Wed Sep 25 14:30:45 2024", infoJobA⟩,
   ⟨"a2", some "alice", some "nodeA", "Thu Sep 26 09:00:00 2024", infoJobA⟩,
   ⟨"a3", some "alice", some "nodeA", "Mon Sep 23 08:00:00 2024", infoJobA⟩,
   ⟨"b1", some "bob", some "nodeB", "Tue Sep 24 12:00:00 2024", infoJobA⟩,
   ⟨"b2", some "bob", some "nodeB", "Wed Sep 18 10:00:00 2024", infoJobA⟩]

/-- Concrete instance of `c7_summarize_groups_and_counts` on the spec's
synthetic rows: counts 3 and 2 with the groups' latest start times. -/
theorem c7_summarize_groups_and_counts_witness :
    (⟨some "alice", "nodeA", 3, "26-09-2024 09:00:00"⟩ : SummaryRow) ∈
        statsRows (get_job_stats none none none none none none dtmMin summStore) ∧
      (⟨some "bob", "nodeB", 2, "24-09-2024 12:00:00"⟩ : SummaryRow) ∈
        statsRows (get_job_stats none none none none none none dtmMin summStore) := by
  constructor
  · apply (c7_summarize_groups_and_counts summStore dtmMin (by decide) (by decide) _).mpr
    refine ⟨by decide, by decide, ⟨2024, 9, 26, 9, 0, 0⟩, by decide, ?_, by decide⟩
    intro r hr hk d2 hd2
    simp only [summStore] at hr
    fin_cases hr
    · rw [show parse_pbs_date "Wed Sep 25 14:30:45 2024" =
        some ⟨2024, 9, 25, 14, 30, 45⟩ from rfl] at hd2
      cases hd2
      decide
    · rw [show parse_pbs_date "Thu Sep 26 09:00:00 2024" =
        some ⟨2024, 9, 26, 9, 0, 0⟩ from rfl] at hd2
      cases hd2
      decide
    · rw [show parse_pbs_date "Mon Sep 23 08:00:00 2024" =
        some ⟨2024, 9, 23, 8, 0, 0⟩ from rfl] at hd2
      cases hd2
      decide
    · exact absurd hk (by decide)
    · exact absurd hk (by decide)
  · apply (c7_summarize_groups_and_counts summStore dtmMin (by decide) (by decide) _).mpr
    refine ⟨by decide, by decide, ⟨2024, 9, 24, 12, 0, 0⟩, by decide, ?_, by decide⟩
    intro r hr hk d2 hd2
    simp only [summStore] at hr
    fin_cases hr
    · exact absurd hk (by decide)
    · exact absurd hk (by decide)
    · exact absurd hk (by decide)
    · rw [show parse_pbs_date "Tue Sep 24 12:00:00 2024" =
        some ⟨2024, 9, 24, 12, 0, 0⟩ from rfl] at hd2
      cases hd2
      decide
    · rw [show parse_pbs_date "Wed Sep 18 10:00:00 2024" =
        some ⟨2024, 9, 18, 10, 0, 0⟩ from rfl] at hd2
      cases hd2
      decide
